import Mathlib

/-!
Verification of the `constant_time_eq` crate (src/lib.rs): a shallow
embedding of its comparison functions and proofs of the specified
properties. Bytes (`u8`) are embedded as natural numbers; `^^^` and `|||`
on `Nat` agree with the `u8` operations on values below 256 and no
operation in the code can overflow a byte, so no modular reduction is
needed. Slices `&[u8]` become `List Nat`; fixed arrays `&[u8; n]` become
`Fin n → Nat`. The `assert!` panic in `constant_time_ne` is modelled by
`Option`: `none` is a panic.
-/

namespace ConstantTimeEq

/-- Model of the x86/x86_64 variant of `optimizer_hide` (lib.rs lines
3-11): the inline assembly template `/* {0} */` emits no instruction, the
byte travels through the chosen byte register unchanged (`inout(reg_byte)`),
and the function returns it; semantically the identity on the value. -/
def optimizer_hide_asm_reg_byte (value : Nat) : Nat :=
  value

/-- Model of the arm/aarch64/riscv32/riscv64 variant of `optimizer_hide`
(lib.rs lines 13-27): identical to the x86 variant except for the relaxed
register class (`inout(reg)`); the empty assembly leaves the value
unchanged, so semantically the identity on the value. -/
def optimizer_hide_asm_reg (value : Nat) : Nat :=
  value

/-- Model of `core::ptr::read_volatile(&value)` on a byte that was just
stored: the volatile read returns exactly the stored byte. -/
def read_volatile (stored : Nat) : Nat :=
  stored

/-- Model of the fallback variant of `optimizer_hide` (lib.rs lines
29-41), used on every other architecture: a volatile read of `value`
through a pointer to it, returning the byte just stored. -/
def optimizer_hide_fallback (value : Nat) : Nat :=
  read_volatile value

/-- `optimizer_hide` as invoked by the comparison functions. Exactly one
of the three architecture variants is compiled in (selected at build time
by `cfg(target_arch)`); all three return their argument, so the model
uses that common value semantics. -/
def optimizer_hide (value : Nat) : Nat :=
  value

/-- Model of `constant_time_ne` (lib.rs lines 43-60). The Rust function
asserts `a.len() == b.len()` (`none` models the panic on violation),
re-slices `a` and `b` to `len` (a value-level no-op, present only to
elide bounds checks), folds `tmp |= a[i] ^ b[i]` over `i in 0..len`
starting from `tmp = 0`, and returns `optimizer_hide(tmp)`. -/
def constant_time_ne (a b : List Nat) : Option Nat :=
  if a.length = b.length then
    some (optimizer_hide ((List.range a.length).foldl
      (fun tmp i => tmp ||| (a.getD i 0 ^^^ b.getD i 0)) 0))
  else
    none

/-- Model of `constant_time_eq` (lib.rs lines 78-80):
`a.len() == b.len() && constant_time_ne(a, b) == 0`. The `&&`
short-circuits, so `constant_time_ne` runs only when the lengths agree;
its `none` (panic) would propagate. -/
def constant_time_eq (a b : List Nat) : Option Bool :=
  if a.length = b.length then
    (constant_time_ne a b).map (fun tmp => tmp == 0)
  else
    some false

/-- Model of the body generated by the `constant_time_ne_n!` macro
(lib.rs lines 84-97) for array size `n`: on `&[u8; n]` arrays the lengths
are fixed by the type, so there is no assertion; the loop folds
`tmp |= a[i] ^ b[i]` over `i in 0..n` and the result passes through
`optimizer_hide`. -/
def constant_time_ne_n (n : Nat) (a b : Fin n → Nat) : Nat :=
  optimizer_hide ((List.finRange n).foldl
    (fun tmp i => tmp ||| (a i ^^^ b i)) 0)

/-- `constant_time_ne_16` (lib.rs line 99): the macro instantiated at 16. -/
def constant_time_ne_16 (a b : Fin 16 → Nat) : Nat :=
  constant_time_ne_n 16 a b

/-- `constant_time_ne_32` (lib.rs line 100): the macro instantiated at 32. -/
def constant_time_ne_32 (a b : Fin 32 → Nat) : Nat :=
  constant_time_ne_n 32 a b

/-- `constant_time_ne_64` (lib.rs line 101): the macro instantiated at 64. -/
def constant_time_ne_64 (a b : Fin 64 → Nat) : Nat :=
  constant_time_ne_n 64 a b

/-- Model of `constant_time_eq_16` (lib.rs lines 113-116). -/
def constant_time_eq_16 (a b : Fin 16 → Nat) : Bool :=
  constant_time_ne_16 a b == 0

/-- Model of `constant_time_eq_32` (lib.rs lines 128-131). -/
def constant_time_eq_32 (a b : Fin 32 → Nat) : Bool :=
  constant_time_ne_32 a b == 0

/-- Model of `constant_time_eq_64` (lib.rs lines 143-146). -/
def constant_time_eq_64 (a b : Fin 64 → Nat) : Bool :=
  constant_time_ne_64 a b == 0

/-- The kinds of data operations the comparison loop performs on the byte
values: a byte read `a[i]`, an XOR `a[i] ^ b[i]`, an OR into `tmp`. -/
inductive LoopOp
  | readByte
  | xorBytes
  | orAcc
deriving DecidableEq

/-- `constant_time_ne` instrumented with the sequence of data operations
it executes: each iteration of `for i in 0..len { tmp |= a[i] ^ b[i] }`
unconditionally performs two byte reads, one XOR and one OR, with no
branch or early exit on the data. -/
def constant_time_ne_traced (a b : List Nat) : Option (Nat × List LoopOp) :=
  if a.length = b.length then
    some ((List.range a.length).foldl
      (fun s i => (s.1 ||| (a.getD i 0 ^^^ b.getD i 0),
        s.2 ++ [LoopOp.readByte, LoopOp.readByte, LoopOp.xorBytes, LoopOp.orAcc]))
      (0, []))
  else
    none

/-- The operation sequence determined by the length alone: `n` copies of
read, read, XOR, OR. -/
def traceOfLength (n : Nat) : List LoopOp :=
  (List.replicate n
    [LoopOp.readByte, LoopOp.readByte, LoopOp.xorBytes, LoopOp.orAcc]).flatten

/-- Variant of `constant_time_ne` in which every indexing `a[i]`, `b[i]`
is bounds-checked (`none` on an out-of-range index), used to state that
all indexing in the loop is in bounds. -/
def constant_time_ne_checked (a b : List Nat) : Option Nat :=
  if a.length = b.length then
    ((List.range a.length).foldlM
      (fun tmp i => do
        let x ← a[i]?
        let y ← b[i]?
        pure (tmp ||| (x ^^^ y))) 0).map optimizer_hide
  else
    none

/-! Core lemmas. -/

theorem lor_eq_zero_iff (x y : Nat) : x ||| y = 0 ↔ x = 0 ∧ y = 0 := by
  constructor
  · intro h
    refine ⟨Nat.eq_of_testBit_eq fun i => ?_, Nat.eq_of_testBit_eq fun i => ?_⟩ <;>
    · have h2 := congrArg (fun z => Nat.testBit z i) h
      simp [Nat.testBit_or] at h2
      simp [h2]
  · rintro ⟨rfl, rfl⟩
    rfl

theorem foldl_or_eq_zero (l : List Nat) (f : Nat → Nat) (x : Nat) :
    l.foldl (fun tmp i => tmp ||| f i) x = 0 ↔ x = 0 ∧ ∀ i ∈ l, f i = 0 := by
  induction l generalizing x with
  | nil => simp
  | cons hd tl ih =>
    rw [List.foldl_cons, ih, lor_eq_zero_iff]
    simp only [List.mem_cons]
    constructor
    · rintro ⟨⟨hx, hhd⟩, htl⟩
      refine ⟨hx, fun i hi => ?_⟩
      rcases hi with rfl | hi
      · exact hhd
      · exact htl i hi
    · rintro ⟨hx, hall⟩
      exact ⟨⟨hx, hall hd (Or.inl rfl)⟩, fun i hi => hall i (Or.inr hi)⟩

theorem pointwise_xor_zero_iff (a b : List Nat) (h : a.length = b.length) :
    (∀ i ∈ List.range a.length, a.getD i 0 ^^^ b.getD i 0 = 0) ↔ a = b := by
  constructor
  · intro hp
    refine List.ext_getElem h fun i h1 h2 => ?_
    have hi := hp i (List.mem_range.mpr h1)
    rw [a.getD_eq_getElem 0 h1, b.getD_eq_getElem 0 h2] at hi
    exact Nat.xor_eq_zero.mp hi
  · rintro rfl i _
    simp

theorem constant_time_ne_eq_some_zero_iff (a b : List Nat) :
    constant_time_ne a b = some 0 ↔ a = b := by
  unfold constant_time_ne
  split
  · rename_i h
    rw [Option.some_inj]
    show (List.range a.length).foldl
      (fun tmp i => tmp ||| (a.getD i 0 ^^^ b.getD i 0)) 0 = 0 ↔ a = b
    rw [foldl_or_eq_zero]
    simp only [true_and]
    exact pointwise_xor_zero_iff a b h
  · rename_i h
    simp only [reduceCtorEq, false_iff]
    intro hab
    exact h (hab ▸ rfl)

theorem constant_time_eq_spec (a b : List Nat) :
    constant_time_eq a b = some (decide (a = b)) := by
  unfold constant_time_eq
  split
  · rename_i h
    unfold constant_time_ne
    rw [if_pos h, Option.map_some']
    congr 1
    by_cases hab : a = b
    · have h0 : constant_time_ne a b = some 0 :=
        (constant_time_ne_eq_some_zero_iff a b).mpr hab
      unfold constant_time_ne at h0
      rw [if_pos h, Option.some_inj] at h0
      simp [h0, hab, optimizer_hide]
    · have h0 : constant_time_ne a b ≠ some 0 :=
        fun hc => hab ((constant_time_ne_eq_some_zero_iff a b).mp hc)
      unfold constant_time_ne at h0
      rw [if_pos h] at h0
      have h1 : optimizer_hide ((List.range a.length).foldl
          (fun tmp i => tmp ||| (a.getD i 0 ^^^ b.getD i 0)) 0) ≠ 0 :=
        fun hc => h0 (by rw [hc])
      rw [decide_eq_false hab]
      exact beq_eq_false_iff_ne.mpr h1
  · rename_i h
    have hab : a ≠ b := fun hc => h (hc ▸ rfl)
    simp [hab]

theorem constant_time_ne_ofFn (n : Nat) (a b : Fin n → Nat) :
    constant_time_ne (List.ofFn a) (List.ofFn b) = some (constant_time_ne_n n a b) := by
  unfold constant_time_ne constant_time_ne_n
  rw [if_pos (by simp)]
  rw [Option.some_inj]
  show optimizer_hide _ = optimizer_hide _
  congr 1
  rw [List.length_ofFn, ← List.map_coe_finRange n, List.foldl_map]
  refine List.foldl_ext _ _ 0 fun tmp i _ => ?_
  congr 1
  have ha : (List.ofFn a).getD i.val 0 = a i := by
    rw [(List.ofFn a).getD_eq_getElem 0 (by simp [i.isLt]), List.getElem_ofFn]
  have hb : (List.ofFn b).getD i.val 0 = b i := by
    rw [(List.ofFn b).getD_eq_getElem 0 (by simp [i.isLt]), List.getElem_ofFn]
  rw [ha, hb]

theorem foldl_pair_fst {α : Type} (l : List α) (f : Nat → α → Nat) (c : List LoopOp)
    (x : Nat) (y : List LoopOp) :
    (l.foldl (fun s i => (f s.1 i, s.2 ++ c)) (x, y)).1 = l.foldl f x := by
  induction l generalizing x y with
  | nil => rfl
  | cons hd tl ih => simpa using ih (f x hd) (y ++ c)

theorem foldl_pair_snd {α : Type} (l : List α) (f : Nat → α → Nat) (c : List LoopOp)
    (x : Nat) (y : List LoopOp) :
    (l.foldl (fun s i => (f s.1 i, s.2 ++ c)) (x, y)).2
      = y ++ (List.replicate l.length c).flatten := by
  induction l generalizing x y with
  | nil => simp
  | cons hd tl ih =>
    rw [List.foldl_cons]
    rw [ih (f x hd) (y ++ c)]
    simp [List.replicate_succ]

theorem foldlM_checked (a b : List Nat) (l : List Nat) (tmp : Nat)
    (hl : ∀ i ∈ l, i < a.length ∧ i < b.length) :
    l.foldlM (fun tmp i => do
      let x ← a[i]?
      let y ← b[i]?
      pure (tmp ||| (x ^^^ y))) tmp
    = some (l.foldl (fun tmp i => tmp ||| (a.getD i 0 ^^^ b.getD i 0)) tmp) := by
  induction l generalizing tmp with
  | nil => rfl
  | cons hd tl ih =>
    obtain ⟨ha, hb⟩ := hl hd (List.mem_cons_self hd tl)
    have h1 : a[hd]? = some (a.getD hd 0) := by
      rw [a.getD_eq_getElem 0 ha]
      exact List.getElem?_eq_getElem ha
    have h2 : b[hd]? = some (b.getD hd 0) := by
      rw [b.getD_eq_getElem 0 hb]
      exact List.getElem?_eq_getElem hb
    rw [List.foldlM_cons]
    have hstep : (do
        let x ← a[hd]?
        let y ← b[hd]?
        pure (tmp ||| (x ^^^ y)) : Option Nat)
        = some (tmp ||| (a.getD hd 0 ^^^ b.getD hd 0)) := by
      rw [h1, h2]
      rfl
    rw [hstep, List.foldl_cons]
    exact ih _ fun i hi => hl i (List.mem_cons_of_mem hd hi)

theorem constant_time_ne_checked_eq_ne (a b : List Nat) :
    constant_time_ne_checked a b = constant_time_ne a b := by
  unfold constant_time_ne_checked constant_time_ne
  split
  · rename_i h
    rw [foldlM_checked a b _ 0 fun i hi =>
      ⟨List.mem_range.mp hi, h ▸ List.mem_range.mp hi⟩]
    rfl
  · rfl

/-! Claim theorems. -/

/-- Claim C1: for every pair of byte sequences `a` and `b`,
`constant_time_eq a b` returns `true` exactly when `a` and `b` have the
same length and identical contents at every index, i.e. are equal as
sequences; in particular, equal-length sequences that differ in at least
one byte yield `false`. -/
theorem claim_C1_equal_iff (a b : List Nat) :
    (constant_time_eq a b = some true ↔ a = b) ∧
    (a.length = b.length → a ≠ b → constant_time_eq a b = some false) := by
  constructor
  · rw [constant_time_eq_spec]
    simp
  · intro _ hab
    rw [constant_time_eq_spec]
    simp [hab]

/-- Claim C1 at a concrete input: `[1, 2]` and `[1, 3]` have equal length
and differ in one byte, and the comparison returns `false`. -/
theorem claim_C1_equal_iff_witness :
    constant_time_eq [1, 2] [1, 3] = some false :=
  (claim_C1_equal_iff [1, 2] [1, 3]).2 (by decide) (by decide)

/-- Claim C2: each fixed-size comparison (`constant_time_eq_16`, `_32`,
`_64`) returns the same boolean as the generic `constant_time_eq` applied
to the same contents (and the generic one completes normally there). -/
theorem claim_C2_fixed_size_consistency :
    (∀ a b : Fin 16 → Nat,
      some (constant_time_eq_16 a b)
        = constant_time_eq (List.ofFn a) (List.ofFn b)) ∧
    (∀ a b : Fin 32 → Nat,
      some (constant_time_eq_32 a b)
        = constant_time_eq (List.ofFn a) (List.ofFn b)) ∧
    (∀ a b : Fin 64 → Nat,
      some (constant_time_eq_64 a b)
        = constant_time_eq (List.ofFn a) (List.ofFn b)) := by
  refine ⟨fun a b => ?_, fun a b => ?_, fun a b => ?_⟩ <;>
  · unfold constant_time_eq
    rw [if_pos (by simp), constant_time_ne_ofFn, Option.map_some']
    rfl

/-- Claim C3: for equal-length inputs, the sequence of data operations
executed by the comparison loop (byte reads, XORs, ORs) is exactly
`traceOfLength` of the common length — a function of the length alone,
so identical for any two contents of that length — and the instrumented
loop computes the same accumulator as `constant_time_ne`. -/
theorem claim_C3_trace_content_independent (a b : List Nat)
    (h : a.length = b.length) :
    (constant_time_ne_traced a b).map Prod.snd = some (traceOfLength a.length) ∧
    (constant_time_ne_traced a b).map (fun s => optimizer_hide s.1)
      = constant_time_ne a b := by
  constructor
  · unfold constant_time_ne_traced
    rw [if_pos h, Option.map_some', Option.some_inj]
    exact (foldl_pair_snd (List.range a.length)
      (fun t j => t ||| (a.getD j 0 ^^^ b.getD j 0))
      [LoopOp.readByte, LoopOp.readByte, LoopOp.xorBytes, LoopOp.orAcc]
      0 []).trans (by simp [traceOfLength])
  · unfold constant_time_ne_traced constant_time_ne
    rw [if_pos h, if_pos h, Option.map_some', Option.some_inj]
    congr 1
    exact foldl_pair_fst (List.range a.length)
      (fun t j => t ||| (a.getD j 0 ^^^ b.getD j 0))
      [LoopOp.readByte, LoopOp.readByte, LoopOp.xorBytes, LoopOp.orAcc]
      0 []

/-- Claim C3 at a concrete input: two equal-length pairs with different
contents produce the identical operation trace, and the instrumented
accumulator agrees with `constant_time_ne`. -/
theorem claim_C3_trace_content_independent_witness :
    ((constant_time_ne_traced [1, 2] [1, 2]).map Prod.snd
        = some (traceOfLength 2) ∧
      (constant_time_ne_traced [1, 2] [1, 2]).map (fun s => optimizer_hide s.1)
        = constant_time_ne [1, 2] [1, 2]) ∧
    ((constant_time_ne_traced [3, 9] [7, 9]).map Prod.snd
        = some (traceOfLength 2) ∧
      (constant_time_ne_traced [3, 9] [7, 9]).map (fun s => optimizer_hide s.1)
        = constant_time_ne [3, 9] [7, 9]) :=
  ⟨claim_C3_trace_content_independent [1, 2] [1, 2] (by decide),
    claim_C3_trace_content_independent [3, 9] [7, 9] (by decide)⟩

/-- Claim C4: whenever the lengths differ, `constant_time_eq` returns the
boolean `false` (a normal result, not a panic), for any contents. -/
theorem claim_C4_length_mismatch (a b : List Nat) (h : a.length ≠ b.length) :
    constant_time_eq a b = some false := by
  unfold constant_time_eq
  rw [if_neg h]

/-- Claim C4 at a concrete input: a one-byte sequence against the empty
sequence returns `false`. -/
theorem claim_C4_length_mismatch_witness :
    constant_time_eq [1] [] = some false :=
  claim_C4_length_mismatch [1] [] (by decide)

/-- Claim C5: `constant_time_eq` is total — it returns a boolean on every
pair of inputs and never propagates the panic of `constant_time_ne`'s
assertion; when the lengths are equal (the only way `constant_time_ne` is
reached past the short-circuit) the assertion passes; and the
bounds-checked version of the loop agrees with the unchecked one on all
inputs, so every indexing is in bounds. -/
theorem claim_C5_totality (a b : List Nat) :
    (∃ r : Bool, constant_time_eq a b = some r) ∧
    (a.length = b.length → (constant_time_ne a b).isSome = true) ∧
    constant_time_ne_checked a b = constant_time_ne a b := by
  refine ⟨⟨decide (a = b), constant_time_eq_spec a b⟩, fun h => ?_,
    constant_time_ne_checked_eq_ne a b⟩
  unfold constant_time_ne
  rw [if_pos h]
  rfl

/-- Claim C5 at a concrete input: both on equal-length and on
mismatched-length inputs the public comparison completes. -/
theorem claim_C5_totality_witness :
    ((∃ r : Bool, constant_time_eq [4, 5] [4, 6] = some r) ∧
      ([4, 5] : List Nat).length = ([4, 6] : List Nat).length ∧
      (constant_time_ne [4, 5] [4, 6]).isSome = true) ∧
    (∃ r : Bool, constant_time_eq [4] [] = some r) :=
  ⟨⟨(claim_C5_totality [4, 5] [4, 6]).1, by decide,
      (claim_C5_totality [4, 5] [4, 6]).2.1 (by decide)⟩,
    (claim_C5_totality [4] []).1⟩

/-- Claim C6: every architecture variant of the optimizer barrier
(`optimizer_hide`) returns exactly the byte value it was given, on all
inputs, with no failure condition (each is a total function). -/
theorem claim_C6_optimizer_hide_identity (value : Nat) :
    optimizer_hide_asm_reg_byte value = value ∧
    optimizer_hide_asm_reg value = value ∧
    optimizer_hide_fallback value = value ∧
    optimizer_hide value = value :=
  ⟨rfl, rfl, rfl, rfl⟩

/-- Claim C7: reflexivity — comparing any byte sequence with itself,
including the empty one, returns `true`. -/
theorem claim_C7_reflexivity (x : List Nat) :
    constant_time_eq x x = some true := by
  rw [constant_time_eq_spec]
  simp

/-- Claim C8: symmetry — for equal-length sequences the comparison
returns the same boolean with its arguments swapped. -/
theorem claim_C8_symmetry (a b : List Nat) (h : a.length = b.length) :
    constant_time_eq a b = constant_time_eq b a := by
  rw [constant_time_eq_spec, constant_time_eq_spec]
  simp [eq_comm]

/-- Claim C8 at a concrete input: swapping `[1]` and `[2]` does not
change the result. -/
theorem claim_C8_symmetry_witness :
    constant_time_eq [1] [2] = constant_time_eq [2] [1] :=
  claim_C8_symmetry [1] [2] (by decide)

/-- Claim C9: comparing two empty byte sequences returns `true`. -/
theorem claim_C9_empty :
    constant_time_eq ([] : List Nat) [] = some true := by
  decide

/-- Claim C10: determinism — any two invocations of the same public
comparison with the same inputs return the same boolean. (The embedding
of each operation is a pure function of its arguments, matching the
source, which has no state beyond the call-local accumulator.) -/
theorem claim_C10_deterministic (a b a2 b2 : List Nat)
    (ha : a = a2) (hb : b = b2) :
    constant_time_eq a b = constant_time_eq a2 b2 ∧
    (∀ (x y x2 y2 : Fin 16 → Nat), x = x2 → y = y2 →
      constant_time_eq_16 x y = constant_time_eq_16 x2 y2) ∧
    (∀ (x y x2 y2 : Fin 32 → Nat), x = x2 → y = y2 →
      constant_time_eq_32 x y = constant_time_eq_32 x2 y2) ∧
    (∀ (x y x2 y2 : Fin 64 → Nat), x = x2 → y = y2 →
      constant_time_eq_64 x y = constant_time_eq_64 x2 y2) := by
  subst ha
  subst hb
  exact ⟨rfl,
    fun x y x2 y2 hx hy => by rw [hx, hy],
    fun x y x2 y2 hx hy => by rw [hx, hy],
    fun x y x2 y2 hx hy => by rw [hx, hy]⟩

/-- Claim C10 at a concrete input. -/
theorem claim_C10_deterministic_witness :
    constant_time_eq [5] [5] = constant_time_eq [5] [5] :=
  (claim_C10_deterministic [5] [5] [5] [5] rfl rfl).1

end ConstantTimeEq
